import Mathlib

/-!
Verification of the data-cleaning and feature-engineering pipeline of the
recruitment-fairness repository.

The development shallowly embeds the functions of
`docs/utils/data_cleaning.py` and the scoring functions of
`utils/feature_engineering.py` (in its three variants found in the
repository) as Lean functions over explicit row lists.

Modelling conventions, stated once here:

* A pandas `DataFrame` of candidate events is modelled as a `List Row`
  where `Row` carries the columns the cleaning code touches.  A missing
  value (`NaN`) in a string column is `none`.  Rows are assumed to carry a
  non-null `ID` (the cleaning code's `groupby('ID')` would silently drop
  null-ID rows, which no claim depends on).
* A column that a function *adds* to the frame (`Original_ID`, `Hired`) is
  modelled as an `Option`-valued field that is `none` while the column is
  absent; as the code never writes `NaN` into those columns the two
  readings never collide.
* In-place mutation of the caller's frame is made explicit: each cleaning
  function returns a pair `(result, postInput)` where `postInput` is the
  state of the caller's `DataFrame` object after the call.
* `df.groupby(k, group_keys=False).apply(f)`: pandas concatenates the
  per-group results in sorted key order, except that when every group is
  returned with its index in the original order the concatenation is
  reindexed back to the *original* row order of the frame.  Both behaviours
  are reproduced below where they occur.
* Python `str.strip()` / `.lower()` are modelled character-wise
  (`Char.toLower` lower-cases ASCII letters; the repository's data and all
  literals used by the code are ASCII).
* Exceptions are modelled with `Except String`.
-/

/-- Boolean code-point-wise lexicographic order on character lists,
mirroring Python string comparison. -/
def charsLe : List Char → List Char → Bool
  | [], _ => true
  | _ :: _, [] => false
  | a :: as, b :: bs =>
    decide (a.val < b.val) || (a.val == b.val && charsLe as bs)

/-- Python `s1 <= s2` on strings (code-point lexicographic). -/
def strLeB (a b : String) : Bool :=
  charsLe a.data b.data

/-- Python `str.strip()` on a character list: drop leading and trailing
whitespace. -/
def trimChars (l : List Char) : List Char :=
  ((l.dropWhile Char.isWhitespace).reverse.dropWhile Char.isWhitespace).reverse

/-- `s.strip().lower()` as used on the `Candidate State` and
`event_type__val` columns. -/
def normS (s : String) : String :=
  String.mk ((trimChars s.data).map Char.toLower)

/-- `s.strip()` as used on the `event_feedback` column. -/
def normF (s : String) : String :=
  String.mk (trimChars s.data)

/-- One row of the candidate-event table: the columns that
`data_cleaning.py` reads or writes.  `attrs` holds the row's values at the
static attribute columns from which `invariant_columns` are drawn
(addressed by position).  `hired` and `origId` model the `Hired` and
`Original_ID` columns, `none` when the column is absent. -/
structure Row where
  id : String
  state : Option String := none
  event : Option String := none
  feedback : Option String := none
  sector : Option String := none
  attrs : List (Option String) := []
  hired : Option Bool := none
  origId : Option String := none
deriving DecidableEq

/-- The value combination of a row over the configured invariant columns
(`group[invariant_columns]`); a missing configured column would be a
caller error and is out of scope, positions index into `attrs`. -/
def comboOf (cols : List Nat) (r : Row) : List (Option String) :=
  cols.map (fun j => r.attrs.getD j none)

/-- Ordering of invariant-value combinations as `groupby(..., dropna=False,
sort=True)` enumerates them: lexicographic with missing values last. -/
def optStrLe (a b : Option String) : Bool :=
  match a, b with
  | none, none => true
  | none, some _ => false
  | some _, none => true
  | some x, some y => strLeB x y

/-- Lexicographic order on combinations (pandas sorts group keys
level-wise, `NaN` last). -/
def comboLe : List (Option String) → List (Option String) → Bool
  | [], _ => true
  | _ :: _, [] => false
  | a :: as, b :: bs => if a == b then comboLe as bs else optStrLe a b

/-- Sorted enumeration order of the distinct combinations of a group. -/
def sortCombos (l : List (List (Option String))) : List (List (Option String)) :=
  List.insertionSort (fun a b => comboLe a b = true) l

/-- Extract the row list of an `ok` result (`[]` on an exception).  Used
only to state theorems about results that are proved to be `ok`. -/
def resultRows (x : Except String (List Row)) : List Row :=
  match x with
  | .ok l => l
  | .error _ => []

/-- Whether a call returned normally. -/
def exOk (x : Except String (List Row)) : Bool :=
  match x with
  | .ok _ => true
  | .error _ => false

/-- The exception message of a failed call. -/
def exErr (x : Except String (List Row)) : Option String :=
  match x with
  | .ok _ => none
  | .error e => some e

/-- `split_duplicate_ids_by_invariant_columns(df, invariant_columns)` of
`docs/utils/data_cleaning.py`.

The first component is the returned frame (or the exception raised), the
second is the caller's `df` after the call: the function assigns
`df['Original_ID'] = df['ID']` in place before re-grouping, so the
caller's object gains an `Original_ID` column whenever that line runs.

Pandas details reproduced here:
* `invariant_columns is None` raises the documented `ValueError` before
  anything is mutated.
* with an *empty* column list, `group[[]].drop_duplicates()` returns the
  whole zero-column group unchanged (a frame with a zero-length axis is
  `empty` and `drop_duplicates` short-circuits), so any group with more
  than one row falls into the `else` branch where
  `group.groupby([], dropna=False)` raises the pandas error
  `No group keys passed!`;
* on a *zero-row* table there are zero groups, `apply` never runs
  `split_id`, the resulting frame has no `New_ID` column, and the
  subsequent `df['New_ID']` raises `KeyError: 'New_ID'` — for every
  (non-`None`) choice of `invariant_columns`;
* `split_id` returns each group with its index order unchanged, so the
  `groupby(...).apply` result is reindexed back to the original row order;
  each row's new identifier depends only on its group and its own
  combination, with `idx` enumerating the distinct combinations in sorted
  order and the suffix built from the group's shared original identifier. -/
def split_duplicate_ids_by_invariant_columns (colsOpt : Option (List Nat))
    (df : List Row) : Except String (List Row) × List Row :=
  match colsOpt with
  | none => (.error "You must provide a list of invariant_columns.", df)
  | some cols =>
    let dfM := df.map fun r => { r with origId := some r.id }
    let grp := fun (i : String) => dfM.filter fun r => r.id == i
    let res : Except String (List Row) :=
      if cols.isEmpty && dfM.any (fun r => (grp r.id).length != 1) then
        .error "No group keys passed!"
      else if dfM.isEmpty then
        .error "KeyError: 'New_ID'"
      else
        let newId := fun (r : Row) =>
          let combos := ((grp r.id).map (comboOf cols)).dedup
          if combos.length == 1 then r.id
          else r.id ++ "_" ++ toString ((sortCombos combos).indexOf (comboOf cols r) + 1)
        .ok (dfM.map fun r => { r with id := newId r, origId := none })
    (res, dfM)

/-- Rows of `out` sharing one final `ID` agree on every invariant column:
the reconciliation post-condition the function's docstring promises. -/
def invariantAgrees (cols : List Nat) (out : List Row) : Bool :=
  out.all fun r => out.all fun s => r.id != s.id || comboOf cols r == comboOf cols s

/-- The states that mark an uninformative early-stage candidate. -/
def initialStates : List (Option String) :=
  [some "imported", some "first contact", some "in selection"]

/-- The distinct identifiers of a frame in the order `groupby('ID')`
enumerates its groups: sorted. -/
def idList (n : List Row) : List String :=
  ((n.map Row.id).dedup).insertionSort (fun a b => strLeB a b = true)

/-- The `ID` group of an identifier, rows in frame order. -/
def groupOf (n : List Row) (i : String) : List Row :=
  n.filter fun r => r.id == i

/-- The drop test of `remove_initial_stage_candidates` on one identifier's
group: a single row, only initial states, and no sector information. -/
def initialDrop (n : List Row) (i : String) : Bool :=
  let g := groupOf n i
  g.length == 1
    && g.all (fun r => initialStates.contains r.state)
    && g.all (fun r => r.sector == none)

/-- `remove_initial_stage_candidates(df)` of `docs/utils/data_cleaning.py`.

First component: the returned cleaned frame.  Second component: the
caller's `df` after the call — the function rewrites
`df['Candidate State']` to its stripped and lower-cased form in place.
An identifier is dropped when its group is a single row whose normalized
state is one of `initialStates` and whose `Sector` is missing. -/
def remove_initial_stage_candidates (df : List Row) : List Row × List Row :=
  let n := df.map fun r => { r with state := r.state.map normS }
  let idsToDrop := (idList n).filter (initialDrop n)
  (n.filter (fun r => !(idsToDrop.contains r.id)), n)

/-- Rank of a (normalized) column value in an order list:
`order.index(x) if x in order else -1`, with a missing value (`NaN`) never
contained in the list. -/
def rankIn (order : List String) (x : Option String) : Int :=
  match x with
  | some s => if order.contains s then (order.indexOf s : Int) else -1
  | none => -1

/-- The key that `sort_group`'s `key` lambda assigns to a single cell
value: the lambda is applied by `sort_values` to *each* of the two `by`
columns, so every cell — state or event alike — is mapped to the pair
(rank in `state_order`, rank in `event_order`). -/
def cellKey (so eo : List String) (x : Option String) : Int × Int :=
  (rankIn so x, rankIn eo x)

/-- The full per-row sort key of `sort_group`: the keyed `Candidate State`
column followed by the keyed `event_type__val` column, compared
lexicographically (pandas lexsorts the two keyed columns; Python compares
the cell keys, which are tuples, lexicographically as well). -/
def rowKey (so eo : List String) (r : Row) : (Int × Int) × (Int × Int) :=
  (cellKey so eo r.state, cellKey so eo r.event)

/-- Strict lexicographic order on integer pairs (Python tuple `<`). -/
def pairLt (a b : Int × Int) : Prop :=
  a.1 < b.1 ∨ (a.1 = b.1 ∧ a.2 < b.2)

/-- Lexicographic order on integer pairs (Python tuple `<=`). -/
def pairLe (a b : Int × Int) : Prop :=
  a.1 < b.1 ∨ (a.1 = b.1 ∧ a.2 ≤ b.2)

/-- Lexicographic order on the full row key. -/
def keyLe (a b : (Int × Int) × (Int × Int)) : Prop :=
  pairLt a.1 b.1 ∨ (a.1 = b.1 ∧ pairLe a.2 b.2)

instance (a b : Int × Int) : Decidable (pairLt a b) := by
  unfold pairLt; infer_instance

instance (a b : Int × Int) : Decidable (pairLe a b) := by
  unfold pairLe; infer_instance

instance (a b : (Int × Int) × (Int × Int)) : Decidable (keyLe a b) := by
  unfold keyLe; infer_instance

/-- The row ordering used by `sort_group` for a given pair of order
lists. -/
def rowLe (so eo : List String) (x y : Row) : Prop :=
  keyLe (rowKey so eo x) (rowKey so eo y)

instance (so eo : List String) : DecidableRel (rowLe so eo) := fun _ _ => by
  unfold rowLe; infer_instance

/-- `sort_group(group, state_order, event_order)`: a stable sort of the
group by the row key (`sort_values` with several `by` columns lexsorts,
which is stable). -/
def sort_group (so eo : List String) (g : List Row) : List Row :=
  List.insertionSort (rowLe so eo) g

/-- Normalization pass of `remove_not_hired_valid_candidates`: state and
event are stripped and lower-cased, feedback only stripped. -/
def normRow (r : Row) : Row :=
  { r with
    state := r.state.map normS
    event := r.event.map normS
    feedback := r.feedback.map normF }

/-- `df['Hired'] = df['Candidate State'].apply(lambda x: ...)` on the
normalized frame: `True` exactly when the normalized state equals
`"hired"` (a missing state compares unequal, giving `False`). -/
def setHired (r : Row) : Row :=
  { r with hired := some (r.state == some "hired") }

/-- `series.isin(xs)` for an optional string cell against a string list. -/
def memS (x : Option String) (xs : List String) : Bool :=
  match x with
  | some s => xs.contains s
  | none => false

/-- The event types whose terminal occurrence marks a non-hired candidate
for removal. -/
def terminalEvents : List String :=
  ["economic proposal", "candidate notification"]

/-- The frame after the two in-place column passes of
`remove_not_hired_valid_candidates`: normalization plus the derived
`Hired` column. -/
def hiredFrame (df : List Row) : List Row :=
  (df.map normRow).map setHired

/-- `df.groupby('ID').tail(1)` after the per-group re-ordering: the last
row of each identifier's sorted group. -/
def lastEvents (so eo : List String) (n : List Row) : List Row :=
  (idList n).filterMap fun i => (sort_group so eo (groupOf n i)).getLast?

/-- `remove_not_hired_valid_candidates(df, state_order, event_order,
feedbacks_to_remove)` of `docs/utils/data_cleaning.py`.

First component: the returned cleaned frame.  Second component: the
caller's `df` after the call — the three text columns are normalized in
place and the `Hired` column is added in place before the frame is
re-bound.

Pipeline: normalize, derive `Hired` (`hiredFrame`), re-order each `ID`
group with `sort_group` (per the `groupby(...).apply` convention the
result keeps the original row order when no group's order changed and
otherwise is the groups in sorted-`ID` order), take the last row of each
group (`lastEvents`), collect the identifiers whose last row has a
feedback in `feedbacks_to_remove` or an event in `terminalEvents` while
`Hired` is not `True`, and drop every row of those identifiers.  The
final `drop(columns=['state_order', 'event_order'], errors='ignore')` is
a no-op on this schema. -/
def remove_not_hired_valid_candidates (so eo fb : List String)
    (df : List Row) : List Row × List Row :=
  let n := hiredFrame df
  let sorted := fun (i : String) => sort_group so eo (groupOf n i)
  let processed := if (idList n).all (fun i => sorted i == groupOf n i) then n
    else (idList n).flatMap sorted
  let idsFeedback := ((lastEvents so eo n).filter fun t =>
    memS t.feedback fb && t.hired != some true).map Row.id
  let idsEvent := ((lastEvents so eo n).filter fun t =>
    memS t.event terminalEvents && t.hired != some true).map Row.id
  (processed.filter (fun r => !(idsFeedback.contains r.id || idsEvent.contains r.id)), n)

/-- The condition checked on a group's last row: feedback in
`feedbacks_to_remove` or a terminal event, and `Hired` is not `True`. -/
def lastRowBad (fb : List String) (t : Row) : Prop :=
  (memS t.feedback fb = true ∨ memS t.event terminalEvents = true)
    ∧ t.hired ≠ some true

instance (fb : List String) (t : Row) : Decidable (lastRowBad fb t) := by
  unfold lastRowBad; infer_instance

/-- The removal condition of the outcome pass at an identifier of a
(normalized, `Hired`-carrying) frame `n`, read off the last row of its
sorted group (`False` when the identifier has no rows). -/
def outcomeRemovesN (so eo fb : List String) (n : List Row) (i : String) : Prop :=
  match (sort_group so eo (groupOf n i)).getLast? with
  | some t => lastRowBad fb t
  | none => False

instance (so eo fb : List String) (n : List Row) (i : String) :
    Decidable (outcomeRemovesN so eo fb n i) := by
  unfold outcomeRemovesN
  exact match (sort_group so eo (groupOf n i)).getLast? with
  | some t => by infer_instance
  | none => by infer_instance

/-- The removal condition of the outcome pass at an identifier of the
input frame. -/
def outcomeRemoves (so eo fb : List String) (df : List Row) (i : String) : Prop :=
  outcomeRemovesN so eo fb (hiredFrame df) i

instance (so eo fb : List String) (df : List Row) (i : String) :
    Decidable (outcomeRemoves so eo fb df i) := by
  unfold outcomeRemoves; infer_instance

/-- The per-row sort key as the specification words it: the pair (rank of
`Candidate State` in `state_order`, rank of `event_type` in
`event_order`).  Stated from the spec's words for comparison with the
key the code actually produces (`rowKey`). -/
def claimKey (so eo : List String) (r : Row) : Int × Int :=
  (rankIn so r.state, rankIn eo r.event)

/-- Row ordering induced by the claimed key. -/
def claimLe (so eo : List String) (x y : Row) : Prop :=
  pairLe (claimKey so eo x) (claimKey so eo y)

instance (so eo : List String) : DecidableRel (claimLe so eo) := fun _ _ => by
  unfold claimLe; infer_instance

/-- The removal condition of the outcome pass as the claim words it: the
terminal row is the last row of the group after a stable sort by
`claimKey`, and the identifier is removed exactly when that row's feedback
is in `feedbacks_to_remove` or its event is a terminal event, with `Hired`
false. -/
def claimRemoves (so eo fb : List String) (df : List Row) (i : String) : Prop :=
  match (List.insertionSort (claimLe so eo)
      (groupOf (hiredFrame df) i)).getLast? with
  | some t => lastRowBad fb t
  | none => False

instance (so eo fb : List String) (df : List Row) (i : String) :
    Decidable (claimRemoves so eo fb df i) := by
  unfold claimRemoves
  exact match (List.insertionSort (claimLe so eo)
      (groupOf (hiredFrame df) i)).getLast? with
  | some t => by infer_instance
  | none => by infer_instance

/-!
Feature engineering.  Salary and experience cells are modelled over `ℚ`
(the claims are exact boundary statements, so exact arithmetic is the
faithful reading of the float code); a missing cell is `none` and a `NaN`
result is `none`.
-/

/-- The row-level score of `calculate_salary_fit_score` as implemented in
`docs/utils/feature_engineering.py` and `src/utils/feature_engineering.py`
(the two agree): `1.0` inside the inclusive range, otherwise the signed
distance to the violated bound divided by the scale factor (the range
size, else the minimum bound, else the default `1000`). -/
def salaryScoreRow (expected minRal maxRal : Option ℚ) : Option ℚ :=
  match expected, minRal, maxRal with
  | some e, some m, some M =>
    if m ≤ e ∧ e ≤ M then some 1
    else
      let distance := if e < m then e - m else e - M
      let rangeSize := M - m
      let scale0 := if 0 < rangeSize then rangeSize else m
      let scale := if scale0 ≤ 0 then 1000 else scale0
      some (distance / scale)
  | _, _, _ => none

/-- `calculate_salary_fit_score` of `docs/utils/feature_engineering.py`:
row-wise application over the `(Expected Ral, Minimum Ral, Ral Maximum)`
columns (the `is_expected=False` call only changes which input column is
read, not the arithmetic). -/
def calculate_salary_fit_score (rows : List (Option ℚ × Option ℚ × Option ℚ)) :
    List (Option ℚ) :=
  rows.map fun c => salaryScoreRow c.1 c.2.1 c.2.2

/-- The row-level score of the `calculate_salary_fit_score` variant in
`utils/feature_engineering.py`: same guard and scale factor, but the
distance is taken non-negative and the score is the inverse
`1 / (distance / scale + 1)`. -/
def salaryScoreRowUtils (expected minRal maxRal : Option ℚ) : Option ℚ :=
  match expected, minRal, maxRal with
  | some e, some m, some M =>
    if m ≤ e ∧ e ≤ M then some 1
    else
      let distance := if e < m then m - e else e - M
      let rangeSize := M - m
      let scale0 := if 0 < rangeSize then rangeSize else m
      let scale := if scale0 ≤ 0 then 1000 else scale0
      some (1 / (distance / scale + 1))
  | _, _, _ => none

/-- The `calculate_salary_fit_score` of `utils/feature_engineering.py`. -/
def calculate_salary_fit_score_utils
    (rows : List (Option ℚ × Option ℚ × Option ℚ)) : List (Option ℚ) :=
  rows.map fun c => salaryScoreRowUtils c.1 c.2.1 c.2.2

/-- The pooled experience values of both columns
(`pd.concat([candidate_exps, job_exps])` with `min`/`max` skipping
missing values). -/
def expVals (rows : List (Option ℚ × Option ℚ)) : List ℚ :=
  (rows.map Prod.fst ++ rows.map Prod.snd).filterMap id

/-- The divisor `max_range` of `calculate_experience_match_score`:
`global_max - global_min if global_max != global_min else 1`.  When both
columns are entirely missing, pandas' `min`/`max` are `NaN`; that case is
only ever divided into `NaN` scores, and the value `1` here is an
arbitrary stand-in never used with a numeric numerator. -/
def expRange (rows : List (Option ℚ × Option ℚ)) : ℚ :=
  match (expVals rows).min?, (expVals rows).max? with
  | some gmin, some gmax => if gmax = gmin then 1 else gmax - gmin
  | _, _ => 1

/-- `calculate_experience_match_score` of
`docs/utils/feature_engineering.py` and
`src/utils/feature_engineering.py` (identical there): each row is scored
over the columns `(Years Experience_int, Years Experience.1_int)`; a
missing required experience scores `0`, otherwise the signed difference is
divided by `max_range` computed over the whole dataset.  In the
all-missing corner the code divides by a `NaN` range: every row then
either has a missing requirement (score `0`) or produces `NaN`. -/
def calculate_experience_match_score (rows : List (Option ℚ × Option ℚ)) :
    List (Option ℚ) :=
  match (expVals rows).min?, (expVals rows).max? with
  | some gmin, some gmax =>
    let maxRange := if gmax = gmin then 1 else gmax - gmin
    rows.map fun p =>
      match p.2 with
      | none => some 0
      | some req => p.1.map fun c => (c - req) / maxRange
  | _, _ =>
    rows.map fun p =>
      match p.2 with
      | none => some 0
      | some _ => none


instance (so eo : List String) : IsTotal Row (rowLe so eo) :=
  ⟨by
    intro a b
    simp only [rowLe, keyLe, pairLt, pairLe, Prod.ext_iff]
    omega⟩

instance (so eo : List String) : IsTrans Row (rowLe so eo) :=
  ⟨by
    intro a b c hab hbc
    simp only [rowLe, keyLe, pairLt, pairLe, Prod.ext_iff] at hab hbc ⊢
    omega⟩

/-!
Concrete tables used to evaluate the code at the inputs that decide the
claims.  All string data is already stripped and lower-case except where
a claim is about normalization itself.
-/

/-- A default row (only used to state instantiated conclusions). -/
def dfltRow : Row :=
  { id := "" }

/-- Identifier `A` disagrees on the invariant column and gets split;
identifier `A_1` already exists with yet another invariant value. -/
def tblCollide : List Row :=
  [{ id := "A", attrs := [some "x"] },
   { id := "A", attrs := [some "y"] },
   { id := "A_1", attrs := [some "z"] }]

/-- What one run of the Reconciler on `tblCollide` returns. -/
def tblCollideOnce : List Row :=
  [{ id := "A_1", attrs := [some "x"] },
   { id := "A_2", attrs := [some "y"] },
   { id := "A_1", attrs := [some "z"] }]

/-- What a second run returns: the merged `A_1` group is split again. -/
def tblCollideTwice : List Row :=
  [{ id := "A_1_1", attrs := [some "x"] },
   { id := "A_2", attrs := [some "y"] },
   { id := "A_1_2", attrs := [some "z"] }]

/-- A candidate with a hired row whose other row carries a terminal
event. -/
def tblHiredGone : List Row :=
  [{ id := "B", state := some "hired", event := some "x", feedback := some "ok" },
   { id := "B", state := some "in selection", event := some "economic proposal",
     feedback := some "ok" }]

/-- A group whose event strings collide with `state_order`: the value
`"economic proposal"` appears as an *event* but is listed in
`state_order`, so the code's cell key and the claimed pair key order the
group differently. -/
def tblKeyClash : List Row :=
  [{ id := "C", state := some "s", event := some "economic proposal",
     feedback := some "ok" },
   { id := "C", state := some "s", event := some "zz", feedback := some "ok" }]

/-- A one-row table with a unique identifier. -/
def tblSolo : List Row :=
  [{ id := "A" }]

/-- A one-row table whose state needs normalizing. -/
def tblCaps : List Row :=
  [{ id := "A", state := some "HIRED " }]

/-- A one-row hired candidate (witness data). -/
def tblHiredW : List Row :=
  [{ id := "W", state := some "hired", event := some "economic proposal",
     feedback := some "no" }]

/-!
Helper lemmas.
-/

theorem mem_groupOf {n : List Row} {i : String} {r : Row} :
    r ∈ groupOf n i ↔ r ∈ n ∧ r.id = i := by
  simp [groupOf]

theorem mem_idList {n : List Row} {i : String} :
    i ∈ idList n ↔ ∃ r ∈ n, r.id = i := by
  simp [idList]

theorem mem_sort_group {so eo : List String} {g : List Row} {r : Row} :
    r ∈ sort_group so eo g ↔ r ∈ g := by
  simp [sort_group]

theorem sort_group_eq_nil_iff {so eo : List String} {g : List Row} :
    sort_group so eo g = [] ↔ g = [] := by
  rw [← List.length_eq_zero, sort_group, List.length_insertionSort,
    List.length_eq_zero]

theorem mem_hiredFrame {df : List Row} {r : Row} :
    r ∈ hiredFrame df ↔ ∃ s ∈ df, r = setHired (normRow s) := by
  simp only [hiredFrame, List.map_map, List.mem_map, Function.comp]
  exact ⟨fun ⟨s, hs, h⟩ => ⟨s, hs, h.symm⟩, fun ⟨s, hs, h⟩ => ⟨s, hs, h.symm⟩⟩

theorem rowLe_refl {so eo : List String} (a : Row) : rowLe so eo a a := by
  unfold rowLe keyLe pairLe
  exact Or.inr ⟨rfl, Or.inr ⟨rfl, le_refl _⟩⟩

theorem rel_getLast_of_sorted {α : Type} {r : α → α → Prop}
    (hrefl : ∀ a, r a a) :
    ∀ (l : List α) (hne : l ≠ []), l.Sorted r → ∀ x ∈ l, r x (l.getLast hne)
  | [], hne, _, _, _ => absurd rfl hne
  | [a], _, _, x, hx => by
    simp only [List.mem_singleton] at hx
    subst hx
    exact hrefl x
  | a :: b :: t, _, hs, x, hx => by
    have hbt : (b :: t) ≠ [] := by simp
    rw [List.getLast_cons hbt]
    rcases List.mem_cons.mp hx with h | h
    · subst h
      exact List.rel_of_sorted_cons hs _ (List.getLast_mem hbt)
    · exact rel_getLast_of_sorted hrefl (b :: t) hbt hs.of_cons x h

theorem lastEvents_spec {so eo : List String} {n : List Row} {t : Row} :
    t ∈ lastEvents so eo n ↔
      (sort_group so eo (groupOf n t.id)).getLast? = some t := by
  unfold lastEvents
  rw [List.mem_filterMap]
  constructor
  · rintro ⟨j, _, hlast⟩
    have ht : t ∈ sort_group so eo (groupOf n j) :=
      List.mem_of_mem_getLast? hlast
    have hid : t.id = j := (mem_groupOf.mp (mem_sort_group.mp ht)).2
    rwa [hid]
  · intro h
    have ht : t ∈ sort_group so eo (groupOf n t.id) :=
      List.mem_of_mem_getLast? h
    exact ⟨t.id, mem_idList.mpr ⟨t, (mem_groupOf.mp (mem_sort_group.mp ht)).1, rfl⟩, h⟩

theorem mem_removalIds {so eo fb : List String} {n : List Row} {i : String} :
    ((((lastEvents so eo n).filter fun t =>
        memS t.feedback fb && t.hired != some true).map Row.id).contains i
      || (((lastEvents so eo n).filter fun t =>
        memS t.event terminalEvents && t.hired != some true).map Row.id).contains i)
        = true
      ↔ outcomeRemovesN so eo fb n i := by
  have hc : ∀ (p : Row → Bool),
      (((lastEvents so eo n).filter p).map Row.id).contains i = true ↔
        ∃ t ∈ lastEvents so eo n, p t = true ∧ t.id = i := by
    intro p
    constructor
    · intro h
      obtain ⟨t, ht, hid⟩ := List.mem_map.mp (List.elem_iff.mp h)
      obtain ⟨htl, hp⟩ := List.mem_filter.mp ht
      exact ⟨t, htl, hp, hid⟩
    · rintro ⟨t, htl, hp, hid⟩
      exact List.elem_iff.mpr
        (List.mem_map.mpr ⟨t, List.mem_filter.mpr ⟨htl, hp⟩, hid⟩)
  rw [Bool.or_eq_true, hc, hc]
  unfold outcomeRemovesN
  cases h : (sort_group so eo (groupOf n i)).getLast? with
  | none =>
    rw [iff_false]
    rintro (⟨t, htl, _, hid⟩ | ⟨t, htl, _, hid⟩) <;>
      · rw [lastEvents_spec, hid, h] at htl
        exact Option.noConfusion htl
  | some t0 =>
    have hid0 : t0.id = i :=
      (mem_groupOf.mp (mem_sort_group.mp (List.mem_of_mem_getLast? h))).2
    constructor
    · rintro (⟨t, htl, hp, hid⟩ | ⟨t, htl, hp, hid⟩) <;>
        rw [lastEvents_spec, hid, h] at htl <;>
        obtain rfl : t0 = t := Option.some.inj htl <;>
        rw [Bool.and_eq_true, bne_iff_ne] at hp
      · exact ⟨Or.inl hp.1, hp.2⟩
      · exact ⟨Or.inr hp.1, hp.2⟩
    · rintro ⟨hfe | hev, hh⟩
      · refine Or.inl ⟨t0, ?_, ?_, hid0⟩
        · rw [lastEvents_spec, hid0]; exact h
        · rw [Bool.and_eq_true, bne_iff_ne]; exact ⟨hfe, hh⟩
      · refine Or.inr ⟨t0, ?_, ?_, hid0⟩
        · rw [lastEvents_spec, hid0]; exact h
        · rw [Bool.and_eq_true, bne_iff_ne]; exact ⟨hev, hh⟩

theorem mem_remove_not_hired {so eo fb : List String} {df : List Row} {r : Row} :
    r ∈ (remove_not_hired_valid_candidates so eo fb df).1 ↔
      r ∈ hiredFrame df ∧ ¬ outcomeRemoves so eo fb df r.id := by
  unfold remove_not_hired_valid_candidates outcomeRemoves
  rw [List.mem_filter]
  have hproc : ∀ x : Row,
      (x ∈ if (idList (hiredFrame df)).all (fun i =>
            sort_group so eo (groupOf (hiredFrame df) i) == groupOf (hiredFrame df) i)
          then hiredFrame df
          else (idList (hiredFrame df)).flatMap
            (fun i => sort_group so eo (groupOf (hiredFrame df) i)))
        ↔ x ∈ hiredFrame df := by
    intro x
    split
    · exact Iff.rfl
    · rw [List.mem_flatMap]
      constructor
      · rintro ⟨j, _, hx⟩
        exact (mem_groupOf.mp (mem_sort_group.mp hx)).1
      · intro hx
        exact ⟨x.id, mem_idList.mpr ⟨x, hx, rfl⟩,
          mem_sort_group.mpr (mem_groupOf.mpr ⟨hx, rfl⟩)⟩
  rw [hproc]
  have hneq : ∀ b : Bool, ((!b) = true) ↔ ¬ (b = true) := by
    intro b; cases b <;> simp
  rw [hneq, mem_removalIds]

theorem outcomeRemovesN_iff {so eo fb : List String} {n : List Row} {i : String} :
    outcomeRemovesN so eo fb n i ↔
      ∃ t, (sort_group so eo (groupOf n i)).getLast? = some t ∧ lastRowBad fb t := by
  unfold outcomeRemovesN
  cases h : (sort_group so eo (groupOf n i)).getLast? with
  | none => simp
  | some t0 => simp

/-- C3 (amended): an identifier is removed by the outcome pass if and only
if the last row of its group — under a stable sort whose per-cell key is
the *pair* (rank in `state_order`, rank in `event_order`) applied to the
state cell and to the event cell alike — has a feedback in
`feedbacks_to_remove` or a terminal event type while `Hired` is false;
removal deletes every row of the identifier. -/
theorem outcome_removal_characterization (so eo fb : List String)
    (df : List Row) (i : String) :
    (∃ r ∈ (remove_not_hired_valid_candidates so eo fb df).1, r.id = i) ↔
      ((∃ r ∈ df, r.id = i) ∧ ¬ outcomeRemoves so eo fb df i) := by
  constructor
  · rintro ⟨r, hr, rfl⟩
    obtain ⟨hn, hbad⟩ := mem_remove_not_hired.mp hr
    obtain ⟨s, hs, rfl⟩ := mem_hiredFrame.mp hn
    exact ⟨⟨s, hs, rfl⟩, hbad⟩
  · rintro ⟨⟨s, hs, rfl⟩, hbad⟩
    refine ⟨setHired (normRow s), ?_, rfl⟩
    exact mem_remove_not_hired.mpr ⟨mem_hiredFrame.mpr ⟨s, hs, rfl⟩, hbad⟩

/-- C3 (counterexample): with `state_order = ["economic proposal"]` the
group of identifier `C` is re-ordered by the code's cell key (the event
cell `"economic proposal"` is ranked by `state_order`), so the code
removes `C`, while under the claimed pair key (state rank, event rank)
the group is tied, the stable terminal row is the `"zz"` row and the
claim predicts retention. -/
theorem outcome_key_mismatch_cex :
    tblKeyClash.any (fun r => r.id == "C") = true
      ∧ (remove_not_hired_valid_candidates
          ["economic proposal"] [] [] tblKeyClash).1 = []
      ∧ ¬ claimRemoves ["economic proposal"] [] [] tblKeyClash "C" := by
  decide

/-- C10: the outcome pass returns a frame that carries the derived
boolean `Hired` column, true exactly on the rows whose normalized
`Candidate State` is `"hired"`; the column is not dropped before
returning. -/
theorem hired_column_present (so eo fb : List String) (df : List Row)
    (hin : ∀ r ∈ df, r.hired = none) :
    ∀ r ∈ (remove_not_hired_valid_candidates so eo fb df).1,
      r.hired = some (r.state == some "hired") := by
  intro r hr
  obtain ⟨hn, _⟩ := (mem_remove_not_hired.mp hr)
  obtain ⟨s, _, rfl⟩ := mem_hiredFrame.mp hn
  rfl

/-- C10 witness: on a concrete one-row hired table (whose input schema has
no `Hired` column) the returned row carries `Hired = (state == hired)`. -/
theorem hired_column_present_witness :
    (((remove_not_hired_valid_candidates [] [] [] tblHiredW).1.getD 0 dfltRow).hired
      = some ((((remove_not_hired_valid_candidates [] [] [] tblHiredW).1.getD 0
          dfltRow)).state == some "hired")) :=
  hired_column_present [] [] [] tblHiredW (by decide) _ (by decide)

/-- C2 (amended): an identifier with a hired row is retained by the
outcome pass provided `state_order` ranks `"hired"` strictly above the
state of every non-hired row of that identifier (so that a hired row is
the terminal row); the code guarantees this only under that ranking
condition, not for arbitrary order lists. -/
theorem hired_retained_when_ranked_top (so eo fb : List String)
    (df : List Row) (i : String)
    (h1 : ∃ s ∈ df, s.id = i ∧ s.state.map normS = some "hired")
    (h2 : "hired" ∈ so)
    (h3 : ∀ s ∈ df, s.id = i → s.state.map normS ≠ some "hired" →
      rankIn so (s.state.map normS) < rankIn so (some "hired")) :
    (remove_not_hired_valid_candidates so eo fb df).1.any
      (fun r => r.id == i) = true := by
  obtain ⟨s, hs, hsid, hstate⟩ := h1
  have hxn : setHired (normRow s) ∈ hiredFrame df := mem_hiredFrame.mpr ⟨s, hs, rfl⟩
  have hxid : (setHired (normRow s)).id = i := hsid
  have hxstate : (setHired (normRow s)).state = some "hired" := hstate
  have hnr : ¬ outcomeRemoves so eo fb df i := by
    unfold outcomeRemoves
    rw [outcomeRemovesN_iff]
    rintro ⟨t, hlast, hbad⟩
    have htG : t ∈ sort_group so eo (groupOf (hiredFrame df) i) :=
      List.mem_of_mem_getLast? hlast
    have htn := (mem_groupOf.mp (mem_sort_group.mp htG)).1
    have htid := (mem_groupOf.mp (mem_sort_group.mp htG)).2
    obtain ⟨u, hu, hteq⟩ := mem_hiredFrame.mp htn
    by_cases hcase : u.state.map normS = some "hired"
    · refine hbad.2 ?_
      rw [hteq]
      show some ((normRow u).state == some "hired") = some true
      have : (normRow u).state = some "hired" := hcase
      rw [this]
      rfl
    · have huid : u.id = i := by rw [hteq] at htid; exact htid
      have hrank := h3 u hu huid hcase
      have hsorted :
          (sort_group so eo (groupOf (hiredFrame df) i)).Sorted (rowLe so eo) :=
        List.sorted_insertionSort (rowLe so eo) _
      have hxG : setHired (normRow s) ∈
          sort_group so eo (groupOf (hiredFrame df) i) :=
        mem_sort_group.mpr (mem_groupOf.mpr ⟨hxn, hxid⟩)
      have hne : sort_group so eo (groupOf (hiredFrame df) i) ≠ [] :=
        List.ne_nil_of_mem hxG
      have hlast' := List.getLast?_eq_getLast_of_ne_nil hne
      rw [hlast'] at hlast
      obtain rfl : (sort_group so eo (groupOf (hiredFrame df) i)).getLast hne = t :=
        Option.some.inj hlast
      have hrel := rel_getLast_of_sorted (fun a => rowLe_refl a) _ hne hsorted
        (setHired (normRow s)) hxG
      have htstate :
          ((sort_group so eo (groupOf (hiredFrame df) i)).getLast hne).state
            = u.state.map normS := by rw [hteq]; rfl
      simp only [rowLe, keyLe, pairLt, pairLe, rowKey, cellKey, Prod.ext_iff,
        Prod.mk.injEq] at hrel
      rw [htstate, hxstate] at hrel
      omega
  refine List.any_eq_true.mpr ⟨setHired (normRow s), ?_, by
    rw [beq_iff_eq]; exact hxid⟩
  refine mem_remove_not_hired.mpr ⟨hxn, ?_⟩
  rw [hxid]
  exact hnr

/-- C2 (counterexample): identifier `B` has a row with normalized state
`"hired"`, yet with `state_order = ["hired", "in selection"]` the hired
row sorts first, the terminal row is a non-hired `"economic proposal"`
event, and the whole identifier is removed. -/
theorem hired_candidate_removed_cex :
    tblHiredGone.any (fun r => r.state.map normS == some "hired") = true
      ∧ (remove_not_hired_valid_candidates
          ["hired", "in selection"] [] ["rejected"] tblHiredGone).1 = [] := by
  decide

/-- C2 witness: a concrete hired candidate retained under a ranking that
puts `"hired"` on top. -/
theorem hired_retained_when_ranked_top_witness :
    (remove_not_hired_valid_candidates ["hired"] [] ["no"] tblHiredW).1.any
      (fun r => r.id == "W") = true :=
  hired_retained_when_ranked_top ["hired"] [] ["no"] tblHiredW "W"
    (by decide) (by decide) (by decide)

theorem contains_iff_mem {α : Type} [BEq α] [LawfulBEq α] {l : List α} {a : α} :
    l.contains a = true ↔ a ∈ l :=
  List.elem_iff

theorem initialDrop_df {df : List Row} {i : String} :
    initialDrop (df.map (fun u => { u with state := u.state.map normS })) i = true ↔
      ((df.filter (fun r => r.id == i)).length = 1
        ∧ (∀ r ∈ df, r.id = i → r.state.map normS ∈ initialStates)
        ∧ (∀ r ∈ df, r.id = i → r.sector = none)) := by
  have hpf : ((fun r : Row => r.id == i)
        ∘ (fun u : Row => { u with state := u.state.map normS }))
      = (fun r : Row => r.id == i) := funext fun r => rfl
  have hg : groupOf (df.map (fun u => { u with state := u.state.map normS })) i
      = (df.filter (fun r => r.id == i)).map
          (fun u => { u with state := u.state.map normS }) := by
    unfold groupOf
    rw [List.filter_map, hpf]
  have hcont : ∀ u : Row,
      (initialStates.contains
          ((fun u : Row => { u with state := u.state.map normS }) u).state)
        = initialStates.contains (u.state.map normS) := fun u => rfl
  simp only [initialDrop, hg, List.length_map, Bool.and_eq_true, beq_iff_eq,
    List.all_eq_true, List.mem_map, List.mem_filter]
  constructor
  · rintro ⟨⟨hlen, hstates⟩, hsect⟩
    refine ⟨hlen, ?_, ?_⟩
    · intro r hr hid
      have := hstates _ ⟨r, ⟨hr, hid⟩, rfl⟩
      rw [hcont] at this
      exact contains_iff_mem.mp this
    · intro r hr hid
      have := hsect _ ⟨r, ⟨hr, hid⟩, rfl⟩
      exact this
  · rintro ⟨hlen, hstates, hsect⟩
    refine ⟨⟨hlen, ?_⟩, ?_⟩
    · rintro x ⟨r, ⟨hr, hid⟩, rfl⟩
      rw [hcont]
      exact contains_iff_mem.mpr (hstates r hr hid)
    · rintro x ⟨r, ⟨hr, hid⟩, rfl⟩
      exact hsect r hr hid

/-- C4: the early-stage pass removes an identifier if and only if it has
exactly one row, that row's normalized (stripped, lower-cased) state is
one of imported / first contact / in selection, and its `Sector` is
missing; identifiers with more rows, a sector value, or another state are
retained. -/
theorem initial_removal_characterization (df : List Row) (i : String) :
    (∃ r ∈ (remove_initial_stage_candidates df).1, r.id = i) ↔
      ((∃ r ∈ df, r.id = i) ∧
        ¬ ((df.filter (fun r => r.id == i)).length = 1
            ∧ (∀ r ∈ df, r.id = i → r.state.map normS ∈ initialStates)
            ∧ (∀ r ∈ df, r.id = i → r.sector = none))) := by
  rw [← initialDrop_df]
  unfold remove_initial_stage_candidates
  constructor
  · rintro ⟨r, hr, rfl⟩
    obtain ⟨hn, hkeep⟩ := List.mem_filter.mp hr
    obtain ⟨u, hu, rfl⟩ := List.mem_map.mp hn
    refine ⟨⟨u, hu, rfl⟩, fun hdrop => ?_⟩
    have hidl : ({ u with state := u.state.map normS } : Row).id
        ∈ idList (df.map (fun u => { u with state := u.state.map normS })) :=
      mem_idList.mpr ⟨_, List.mem_map.mpr ⟨u, hu, rfl⟩, rfl⟩
    have hin : (((idList (df.map (fun u => { u with state := u.state.map normS }))).filter
        (initialDrop (df.map (fun u => { u with state := u.state.map normS })))).contains
          ({ u with state := u.state.map normS } : Row).id) = true :=
      contains_iff_mem.mpr (List.mem_filter.mpr ⟨hidl, hdrop⟩)
    rw [hin] at hkeep
    simp at hkeep
  · rintro ⟨⟨u, hu, rfl⟩, hdrop⟩
    refine ⟨{ u with state := u.state.map normS }, ?_, rfl⟩
    refine List.mem_filter.mpr ⟨List.mem_map.mpr ⟨u, hu, rfl⟩, ?_⟩
    have hfalse : (((idList (df.map (fun u => { u with state := u.state.map normS }))).filter
        (initialDrop (df.map (fun u => { u with state := u.state.map normS })))).contains
          ({ u with state := u.state.map normS } : Row).id) = false := by
      cases h : (((idList (df.map (fun u => { u with state := u.state.map normS }))).filter
        (initialDrop (df.map (fun u => { u with state := u.state.map normS })))).contains
          ({ u with state := u.state.map normS } : Row).id) with
      | false => rfl
      | true =>
        exact absurd (List.mem_filter.mp (contains_iff_mem.mp h)).2 hdrop
    rw [hfalse]
    rfl

/-- Every identifier occurs exactly once iff the id column is
duplicate-free. -/
theorem filter_id_length_one_iff_nodup {l : List Row} :
    (∀ r ∈ l, (l.filter (fun x => x.id == r.id)).length = 1) ↔
      (l.map Row.id).Nodup := by
  have hcnt : ∀ i : String,
      (l.filter (fun x => x.id == i)).length = List.count i (l.map Row.id) := by
    intro i
    rw [← List.countP_eq_length_filter, List.count_eq_countP, List.countP_map]
    rfl
  constructor
  · intro h
    rw [List.nodup_iff_count_le_one]
    intro a
    by_cases ha : a ∈ l.map Row.id
    · obtain ⟨r, hr, rfl⟩ := List.mem_map.mp ha
      rw [← hcnt]
      exact le_of_eq (h r hr)
    · rw [List.count_eq_zero.mpr ha]
      exact Nat.zero_le 1
  · intro h r hr
    have h1 : List.count r.id (l.map Row.id) ≤ 1 :=
      List.nodup_iff_count_le_one.mp h _
    have h2 : 0 < List.count r.id (l.map Row.id) :=
      List.count_pos_iff.mpr (List.mem_map.mpr ⟨r, hr, rfl⟩)
    rw [hcnt]
    omega

/-- C6 (amended): a `None` invariant-column list always raises the
documented `ValueError`, but an *empty* list is not an unconditional
configuration error: with an empty list the call returns normally exactly
when the table is non-empty and every identifier occurs in a single row
(a duplicated identifier makes the zero-column `groupby` raise pandas'
`No group keys passed!`, and a zero-row table raises `KeyError:
'New_ID'` from the zero-group apply). -/
theorem invariant_columns_config (df : List Row) :
    exErr (split_duplicate_ids_by_invariant_columns none df).1
        = some "You must provide a list of invariant_columns."
      ∧ (exOk (split_duplicate_ids_by_invariant_columns (some []) df).1 = true
          ↔ (df ≠ [] ∧ (df.map Row.id).Nodup)) := by
  refine ⟨rfl, ?_⟩
  have hids : ((df.map fun r => { r with origId := some r.id }).map Row.id)
      = df.map Row.id := by
    rw [List.map_map]
    rfl
  rw [← hids, ← filter_id_length_one_iff_nodup]
  simp only [split_duplicate_ids_by_invariant_columns, List.isEmpty_nil,
    Bool.true_and]
  cases hany : (df.map fun r => { r with origId := some r.id }).any
      (fun r => ((df.map fun r => { r with origId := some r.id }).filter
        (fun x => x.id == r.id)).length != 1) with
  | true =>
    constructor
    · intro hok
      simp [exOk] at hok
    · rintro ⟨_, hall⟩
      obtain ⟨r, hr, hbad⟩ := List.any_eq_true.mp hany
      exact absurd (hall r hr) (bne_iff_ne.mp hbad)
  | false =>
    cases hemp : (df.map fun r => { r with origId := some r.id }).isEmpty with
    | true =>
      constructor
      · intro hok
        simp [exOk] at hok
      · rintro ⟨hne, _⟩
        exact absurd (List.map_eq_nil_iff.mp (List.isEmpty_iff.mp hemp)) hne
    | false =>
      constructor
      · intro _
        refine ⟨fun hd => ?_, fun r hr => ?_⟩
        · rw [hd] at hemp
          simp at hemp
        · have := List.any_eq_false.mp hany r hr
          rw [Bool.not_eq_true, bne_eq_false_iff_eq] at this
          exact this
      · intro _
        simp [exOk]

/-- C6 (counterexample): on a table whose single identifier occurs once,
calling the Reconciler with an *empty* invariant-column list raises
nothing and returns the table unchanged, so an empty list is not the
hard configuration error the claim describes (only `None` is). -/
theorem empty_invariant_columns_no_error :
    exOk (split_duplicate_ids_by_invariant_columns (some []) tblSolo).1 = true
      ∧ resultRows (split_duplicate_ids_by_invariant_columns (some []) tblSolo).1
          = tblSolo := by
  decide

/-- C1: evaluating the Reconciler on `tblCollide` — where the generated
suffixed identifier `A_1` collides with a pre-existing identifier `A_1` —
yields a table in which two rows share the final identifier `A_1` with
different invariant values: the documented post-condition
(`invariantAgrees`) fails. -/
theorem split_postcondition_violated :
    resultRows (split_duplicate_ids_by_invariant_columns
        (some [0]) tblCollide).1 = tblCollideOnce
      ∧ invariantAgrees [0] tblCollideOnce = false := by
  decide

/-- C5: the Reconciler is not idempotent — on `tblCollide` the first run
merges two distinct entities under `A_1`, and the second run splits that
identifier again, producing a different table. -/
theorem split_not_idempotent :
    resultRows (split_duplicate_ids_by_invariant_columns
        (some [0]) tblCollide).1 = tblCollideOnce
      ∧ resultRows (split_duplicate_ids_by_invariant_columns
          (some [0]) tblCollideOnce).1 = tblCollideTwice
      ∧ tblCollideTwice ≠ tblCollideOnce := by
  decide

/-- C9 (amended): the row-filtering result of each cleaning function is a
new table, but all three functions first mutate the caller's frame in
place: the Reconciler appends an `Original_ID` column, the early-stage
pass rewrites `Candidate State` to its normalized form, and the outcome
pass normalizes the three text columns and appends the `Hired` column. -/
theorem cleaning_mutates_input (df : List Row) (cols : List Nat)
    (so eo fb : List String) :
    (split_duplicate_ids_by_invariant_columns (some cols) df).2
        = df.map (fun r => { r with origId := some r.id })
      ∧ (remove_initial_stage_candidates df).2
          = df.map (fun r => { r with state := r.state.map normS })
      ∧ (remove_not_hired_valid_candidates so eo fb df).2 = hiredFrame df := by
  exact ⟨rfl, rfl, rfl⟩

/-- C9 (counterexample): concrete tables on which each of the three
functions leaves the caller's table object changed — an added
`Original_ID` column, a rewritten `Candidate State` cell, and an added
`Hired` column respectively. -/
theorem cleaning_mutates_input_cex :
    (split_duplicate_ids_by_invariant_columns (some []) tblSolo).2 ≠ tblSolo
      ∧ (remove_initial_stage_candidates tblCaps).2 ≠ tblCaps
      ∧ (remove_not_hired_valid_candidates [] [] [] tblCaps).2 ≠ tblCaps := by
  decide

/-- C7 (amended): for the `calculate_salary_fit_score` of
`docs/utils/feature_engineering.py` and `src/utils/feature_engineering.py`
(the row score `salaryScoreRow`), an expected salary at either bound or
anywhere inside the inclusive range scores `1.0`, and an expected salary
below the minimum by the positive range size scores `-1.0`; the
`utils/feature_engineering.py` variant does not satisfy the second
boundary (see the counterexample). -/
theorem salary_fit_boundary (e m M : ℚ) :
    (m ≤ e ∧ e ≤ M → salaryScoreRow (some e) (some m) (some M) = some 1)
      ∧ (0 < M - m →
          salaryScoreRow (some (m - (M - m))) (some m) (some M) = some (-1)) := by
  constructor
  · intro h
    simp [salaryScoreRow, h]
  · intro h3
    have h1 : ¬ (m ≤ m - (M - m) ∧ m - (M - m) ≤ M) := by
      rintro ⟨a, _⟩
      linarith
    have h2 : m - (M - m) < m := by linarith
    have h4 : ¬ (M - m ≤ 0) := not_le.mpr h3
    have h5 : M - m ≠ 0 := ne_of_gt h3
    simp only [salaryScoreRow, if_neg h1, if_pos h2, if_pos h3, if_neg h4]
    congr 1
    field_simp

/-- C7 (counterexample): at expected 0 with range [1, 2] the
`utils/feature_engineering.py` variant returns `1/2`, not the claimed
`-1.0` that the other two implementations return, so the claim is false
of that variant. -/
theorem salary_fit_variant_divergence :
    calculate_salary_fit_score [(some 0, some 1, some 2)] = [some (-1)]
      ∧ calculate_salary_fit_score_utils [(some 0, some 1, some 2)] = [some (1/2)]
      ∧ (some ((1:ℚ)/2) : Option ℚ) ≠ some (-1) := by
  refine ⟨?_, ?_, by norm_num⟩
  · norm_num [calculate_salary_fit_score, salaryScoreRow]
  · norm_num [calculate_salary_fit_score_utils, salaryScoreRowUtils]

/-- C7 witness: concrete boundary evaluations. -/
theorem salary_fit_boundary_witness :
    salaryScoreRow (some 2) (some 1) (some 3) = some 1
      ∧ salaryScoreRow (some ((1:ℚ) - (3 - 1))) (some 1) (some 3) = some (-1) :=
  ⟨(salary_fit_boundary 2 1 3).1 ⟨by norm_num, by norm_num⟩,
   (salary_fit_boundary 2 1 3).2 (by norm_num)⟩

/-- C8 (amended): a missing required-experience value scores `0` (not
the `NaN` sentinel), and a row with both values present scores
`(candidate - required) / max_range` where `max_range` is the pooled
range of both columns, replaced by `1` exactly when the range is zero —
it is *not* floored at 1 (see the counterexample). -/
theorem experience_score_characterization
    (rows : List (Option ℚ × Option ℚ)) (k : Nat) :
    (∀ c : Option ℚ, rows[k]? = some (c, none) →
        (calculate_experience_match_score rows)[k]? = some (some 0))
      ∧ (∀ c r : ℚ, rows[k]? = some (some c, some r) →
          (calculate_experience_match_score rows)[k]?
            = some (some ((c - r) / expRange rows))) := by
  constructor
  · intro c hk
    unfold calculate_experience_match_score
    cases h1 : (expVals rows).min? with
    | none =>
      cases h2 : (expVals rows).max? <;> simp [List.getElem?_map, hk]
    | some gmin =>
      cases h2 : (expVals rows).max? <;> simp [List.getElem?_map, hk]
  · intro c r hk
    have hmem : (some c, some r) ∈ rows := List.getElem?_mem hk
    have hrv : r ∈ expVals rows :=
      List.mem_filterMap.mpr ⟨some r,
        List.mem_append.mpr (Or.inr (List.mem_map.mpr ⟨_, hmem, rfl⟩)), rfl⟩
    have hne : expVals rows ≠ [] := List.ne_nil_of_mem hrv
    unfold calculate_experience_match_score
    cases h1 : (expVals rows).min? with
    | none => exact absurd (List.min?_eq_none_iff.mp h1) hne
    | some gmin =>
      cases h2 : (expVals rows).max? with
      | none => exact absurd (List.max?_eq_none_iff.mp h2) hne
      | some gmax =>
        rw [List.getElem?_map, hk]
        simp [expRange, h1, h2]

/-- C8 (counterexample): with pooled values `{1, 1/2}` the range is
`1/2 < 1` and the code divides by `1/2` (score `1`), while a divisor
floored at `1` would give score `1/2`; the claim's divisor is wrong for
ranges strictly between 0 and 1. -/
theorem experience_divisor_not_floored :
    calculate_experience_match_score [(some 1, some (1/2))] = [some 1]
      ∧ ((1:ℚ) - 1/2) / max ((1:ℚ) - 1/2) 1 ≠ 1 := by
  constructor
  · norm_num [calculate_experience_match_score, expVals, List.min?, List.max?,
      min_def, max_def, List.filterMap_cons, List.foldl]
  · norm_num [max_def]

/-- C8 witness: concrete scores for a missing requirement and for a
present pair. -/
theorem experience_score_characterization_witness :
    (calculate_experience_match_score [(some 1, none), (some 3, some 1)])[0]?
        = some (some 0)
      ∧ (calculate_experience_match_score [(some 1, none), (some 3, some 1)])[1]?
          = some (some (((3:ℚ) - 1)
              / expRange [(some 1, none), (some 3, some 1)])) :=
  ⟨(experience_score_characterization _ 0).1 (some 1) rfl,
   (experience_score_characterization _ 1).2 3 1 rfl⟩
